import Mathlib

/-!
Verification of the bric_vm toolchain (a 16-bit RISC virtual machine, its
assembler and its debugger) against its natural-language specification.

The Rust sources are shallowly embedded: `u16` values become `Nat` with
wrapping made explicit through `% 65536`, mutation becomes explicit state
passing, fallible functions return `Except`, and code paths that panic in
Rust are modelled through an explicit `panicked` outcome.  Write callbacks
are closures in Rust; here a callback registration is recorded by its
address, and an invocation is recorded as an `(address, value)` event in
the returned event list.
-/

namespace BricVm

/-- Embeds `BError` from src/util.rs.  Messages built by `format!` with
interpolated data are reduced to their constant descriptive part. -/
inductive BError where
  | InstParseError (value : Nat) (message : String)
  | ExecutionHaltedError (value : Nat)
  | InvalidInstructionError (instruction : Nat)
  | MapError (message : String)
  | OutOfBoundsError (address size max : Nat)
  | IoError (message : String)
  | AsmParseError (message : String)
  | SerializationError (message : String)
  | DeserializationError (message : String)
deriving DecidableEq, Repr

/-- Embeds `Region` from src/util.rs: a labeled inclusive interval.
The Rust field `end` is spelled `stop` because `end` is reserved in Lean. -/
structure Region (K V : Type) where
  start : K
  stop : K
  label : V
deriving DecidableEq, Repr

/-- Embeds `RegionMap` from src/util.rs. -/
structure RegionMap (K V : Type) where
  regions : List (Region K V)
deriving DecidableEq, Repr

/-- The adjacent-overlap scan of `RegionMap::try_from` (src/util.rs):
`for i in 1..value.len() { if value[i].start <= value[i-1].end { error } }`,
rendered as a walk over consecutive pairs. -/
def adjacentOk {K V : Type} [LinearOrder K] : List (Region K V) → Bool
  | a :: b :: rest => decide (a.stop < b.start) && adjacentOk (b :: rest)
  | _ => true

/-- Embeds `RegionMap::try_from` (src/util.rs): every region must satisfy
`start <= end`; the list is sorted by `start` (Rust `sort_by` is a stable
merge sort, matched by `List.mergeSort`); then consecutive regions must not
touch.  Error messages keep their constant part. -/
def RegionMap.tryFrom {K V : Type} [LinearOrder K] (value : List (Region K V)) :
    Except BError (RegionMap K V) :=
  if value.all (fun r => decide (r.start ≤ r.stop)) then
    let sorted := value.mergeSort (fun a b => decide (a.start ≤ b.start))
    if adjacentOk sorted then
      .ok ⟨sorted⟩
    else
      .error (.MapError "regions overlap")
  else
    .error (.MapError "region has start > end")

/-- Embeds the bisection loop of `RegionMap::find_region` (src/util.rs),
with the mutable `low`/`high` bounds of the `while low < high` loop as
arguments. -/
def findRegionAux {K V : Type} [LinearOrder K] (regions : List (Region K V))
    (position : K) (low high : Nat) : Option V :=
  if h : low < high then
    let mid := (low + high) / 2
    match regions[mid]? with
    | none => none
    | some region =>
      if position < region.start then
        findRegionAux regions position low mid
      else if region.stop < position then
        findRegionAux regions position (mid + 1) high
      else
        some region.label
  else
    none
termination_by high - low
decreasing_by
  · have : (low + high) / 2 < high := Nat.div_lt_of_lt_mul (by omega)
    omega
  · have : low ≤ (low + high) / 2 := Nat.le_div_iff_mul_le (by omega) |>.mpr (by omega)
    omega

/-- Embeds `RegionMap::find_region` (src/util.rs). -/
def RegionMap.findRegion {K V : Type} [LinearOrder K] (m : RegionMap K V)
    (position : K) : Option V :=
  findRegionAux m.regions position 0 m.regions.length

/-- Embeds `check_slice` from src/util.rs: returns the first `len` bytes
unless the input is shorter. -/
def check_slice (input : List Nat) (len : Nat) : Except BError (List Nat) :=
  if len > input.length then
    .error (.SerializationError "File to short or part missing")
  else
    .ok (input.take len)

/-- Embeds `extract_number` from src/util.rs: big-endian `u16` from the
first two bytes, third byte must be a `0x00` separator.  The Rust function
indexes a slice its callers have already checked to hold three bytes;
out-of-range indexing is rendered with `getD`. -/
def extract_number (slice : List Nat) : Except BError Nat :=
  let out := slice.getD 0 0 * 256 + slice.getD 1 0
  if slice.getD 2 0 ≠ 0 then
    .error (.SerializationError "Invalid region separators")
  else
    .ok out

/-! ## src/vm.rs: registers, RAM, memory unit -/

/-- `RAM_LEN` from src/vm.rs. -/
def RAM_LEN : Nat := 65536

/-- `BIT_15` from src/vm.rs. -/
def BIT_15 : Nat := 0b1000000000000000

/-- Embeds `AccessLevels` from src/vm.rs. -/
inductive AccessLevels where
  | ReadWrite
  | Read
  | None
deriving DecidableEq, Repr

/-- Embeds the `Register` enum from src/vm.rs with its `repr(u8)` codes. -/
inductive Register where
  | None
  | A
  | MA
  | D
  | E
  | F
  | G
  | H
deriving DecidableEq, Repr

/-- The `repr(u8)` discriminant of a register (src/vm.rs). -/
def Register.code : Register → Nat
  | .None => 0b000
  | .A => 0b001
  | .MA => 0b010
  | .D => 0b011
  | .E => 0b100
  | .F => 0b101
  | .G => 0b110
  | .H => 0b111

/-- Embeds `Register::try_from` derived by `TryFromPrimitive` (src/vm.rs):
every 3-bit value decodes, anything larger is an `InstParseError`. -/
def Register.tryFrom (value : Nat) : Except BError Register :=
  match value with
  | 0b000 => .ok .None
  | 0b001 => .ok .A
  | 0b010 => .ok .MA
  | 0b011 => .ok .D
  | 0b100 => .ok .E
  | 0b101 => .ok .F
  | 0b110 => .ok .G
  | 0b111 => .ok .H
  | v => .error (.InstParseError v "A register field can only hold 3 bits.")

/-- A write-callback invocation, recorded as the `(address, value)` pair
the Rust closure would receive. -/
abbrev CbEvent := Nat × Nat

/-- Embeds `Ram` from src/vm.rs.  `write_callbacks` keeps the keys of the
Rust `HashMap`; the closures themselves are modelled by the event lists
returned from writes. -/
structure Ram where
  ram : List Nat
  write_callbacks : List Nat
  memory_regions : RegionMap Nat AccessLevels
deriving DecidableEq, Repr

/-- Embeds `Ram::read_ram` (src/vm.rs): a position whose region has level
`None` reads as 0, everything else reads the backing array (positions not
covered by any region default to `ReadWrite`). -/
def Ram.read_ram (r : Ram) (position : Nat) : Nat :=
  match (r.memory_regions.findRegion position).getD .ReadWrite with
  | .None => 0
  | _ => r.ram.getD position 0

/-- Embeds `Ram::write_ram` (src/vm.rs): only a `ReadWrite` position is
stored, and the callback registered at that exact address (if any) fires;
otherwise the write is dropped (the Rust code prints a diagnostic). -/
def Ram.write_ram (r : Ram) (position value : Nat) : Ram × List CbEvent :=
  match (r.memory_regions.findRegion position).getD .ReadWrite with
  | .ReadWrite =>
    ({ r with ram := r.ram.set position value },
     if position ∈ r.write_callbacks then [(position, value)] else [])
  | _ => (r, [])

/-- Embeds `Ram::set_ram` (src/vm.rs): unconditional store. -/
def Ram.set_ram (r : Ram) (address value : Nat) : Ram :=
  { r with ram := r.ram.set address value }

/-- Embeds `MemoryUnit` from src/vm.rs. -/
structure MemoryUnit where
  a : Nat
  d : Nat
  e : Nat
  f : Nat
  g : Nat
  h : Nat
  ram : Ram
deriving DecidableEq, Repr

/-- Embeds `MemoryUnit::get_reg` (src/vm.rs). -/
def MemoryUnit.get_reg (m : MemoryUnit) : Register → Nat
  | .None => 0
  | .A => m.a
  | .MA => m.ram.read_ram m.a
  | .D => m.d
  | .E => m.e
  | .F => m.f
  | .G => m.g
  | .H => m.h

/-- Embeds `MemoryUnit::set_reg` (src/vm.rs); writing through `*A` goes via
`Ram::write_ram` and may fire a callback. -/
def MemoryUnit.set_reg (m : MemoryUnit) (reg : Register) (value : Nat) :
    MemoryUnit × List CbEvent :=
  match reg with
  | .None => (m, [])
  | .A => ({ m with a := value }, [])
  | .MA =>
    let (ram, ev) := m.ram.write_ram m.a value
    ({ m with ram := ram }, ev)
  | .D => ({ m with d := value }, [])
  | .E => ({ m with e := value }, [])
  | .F => ({ m with f := value }, [])
  | .G => ({ m with g := value }, [])
  | .H => ({ m with h := value }, [])

/-! ## src/vm.rs: instruction encoding and the interpreter -/

/-- A single bit of an instruction word, as read by the `bitfield` getters
in src/vm.rs. -/
def getBit (n i : Nat) : Bool := n.testBit i

/-- The bit field `[lo, lo+width)` of an instruction word, as read by the
`bitfield` getters in src/vm.rs. -/
def getBits (n lo width : Nat) : Nat := n / 2 ^ lo % 2 ^ width

/-- Overwrite bit `i` of a word, as done by the `bitfield` setters in
src/vm.rs. -/
def setBitTo (n i : Nat) (v : Bool) : Nat :=
  n % 2 ^ i + (if v then 2 ^ i else 0) + n / 2 ^ (i + 1) * 2 ^ (i + 1)

/-- Overwrite the bit field `[lo, lo+width)` of a word, as done by the
`bitfield` setters in src/vm.rs (the stored value is masked to the field
width). -/
def setBitsTo (n lo width v : Nat) : Nat :=
  n % 2 ^ lo + v % 2 ^ width * 2 ^ lo + n / 2 ^ (lo + width) * 2 ^ (lo + width)

/-- The ALU of `Vm::interpret_instruction` (src/vm.rs): dispatch on the
`u` bit (11) and the `op` field (8..10).  Wrapping `u16` arithmetic is
written with explicit `% 65536`; bitwise negation of a `u16` is xor with
`0xffff`.  Operands are `u16` values (`< 65536`). -/
def aluCompute (instruction x y : Nat) : Except BError Nat :=
  if getBit instruction 11 then
    match getBits instruction 8 3 with
    | 0b000 => .ok ((x + y) % 65536)
    | 0b001 => .ok ((x + 65536 - y % 65536) % 65536)
    | 0b010 => .ok ((x + 1) % 65536)
    | 0b011 => .ok ((x + 65535) % 65536)
    | 0b100 => .ok (Nat.lor (Nat.land x BIT_15) (x * 2 % 65536))
    | _ => .error (.InvalidInstructionError instruction)
  else
    match getBits instruction 8 3 with
    | 0b000 => .ok (Nat.land x y)
    | 0b001 => .ok (Nat.lor x y)
    | 0b010 => .ok (Nat.xor x y)
    | 0b011 => .ok (Nat.xor x 65535)
    | 0b100 => .ok (x * 2 % 65536)
    | 0b101 => .ok (x / 2)
    | 0b110 => .ok (Nat.lor (x * 2 % 65536) (x / 32768))
    | 0b111 => .ok (Nat.lor (x / 2) (x % 2 * 32768))
    | _ => .error (.InvalidInstructionError instruction)

/-- `lt` condition flag (src/vm.rs): the ALU output reinterpreted as a
signed 16-bit value is negative. -/
def flagLt (output : Nat) : Bool := decide (32768 ≤ output)

/-- `gt` condition flag (src/vm.rs): the ALU output reinterpreted as a
signed 16-bit value is positive. -/
def flagGt (output : Nat) : Bool := decide (0 < output ∧ output < 32768)

/-- `eq` condition flag (src/vm.rs): the ALU output is zero. -/
def flagEq (output : Nat) : Bool := decide (output = 0)

/-- The branch condition of `Vm::interpret_instruction` (src/vm.rs):
`(lt & inst.get_lt()) | (gt & inst.get_gt()) | (eq & inst.get_eq())`,
where bit 2 / bit 0 / bit 1 of the word are the `lt` / `gt` / `eq`
instruction flags. -/
def branchCond (inst output : Nat) : Bool :=
  (flagLt output && getBit inst 2) || (flagGt output && getBit inst 0) ||
    (flagEq output && getBit inst 1)

/-- Embeds `Vm` from src/vm.rs (`Pc` and `Rom` wrappers inlined: the PC is
a wrapping `u16`, the ROM a word vector). -/
structure Vm where
  pc : Nat
  rom : List Nat
  mem : MemoryUnit
deriving DecidableEq, Repr

/-- Embeds `Vm::interpret_instruction` (src/vm.rs).  The result carries an
optional error, the machine state as mutated up to the return point, and
the fired write-callback events.  A taken branch sets `PC` to `A - 1`
(two's-complement wrap, `(a + 65535) % 65536`) before the target register
is written. -/
def Vm.interpret_instruction (vm : Vm) (instruction : Nat) :
    Option BError × Vm × List CbEvent :=
  if getBit instruction 15 = false then
    match Register.tryFrom (getBits instruction 12 3) with
    | .error e => (some e, vm, [])
    | .ok source =>
      let xy := if getBit instruction 7 then (Register.A, source)
                else (source, Register.A)
      match Register.tryFrom (getBits instruction 3 3) with
      | .error e => (some e, vm, [])
      | .ok target =>
        let x := if getBit instruction 6 then 0 else vm.mem.get_reg xy.1
        let y := vm.mem.get_reg xy.2
        match aluCompute instruction x y with
        | .error e => (some e, vm, [])
        | .ok output =>
          let vm' := if branchCond instruction output then
              { vm with pc := (vm.mem.a + 65535) % 65536 }
            else vm
          let me := vm'.mem.set_reg target output
          (none, { vm' with mem := me.1 }, me.2)
  else
    (none, { vm with mem := { vm.mem with a := instruction % BIT_15 } }, [])

/-- The ALU output an instruction word produces on the current machine
state: the operand pipeline of `Vm::interpret_instruction` (source decode,
`sw` swap, `zx` masking, register reads) followed by `aluCompute`; `none`
when the decode or the operation fails. -/
def aluOutput (vm : Vm) (instruction : Nat) : Option Nat :=
  match Register.tryFrom (getBits instruction 12 3) with
  | .error _ => none
  | .ok source =>
    let xy := if getBit instruction 7 then (Register.A, source)
              else (source, Register.A)
    let x := if getBit instruction 6 then 0 else vm.mem.get_reg xy.1
    let y := vm.mem.get_reg xy.2
    match aluCompute instruction x y with
    | .error _ => none
    | .ok output => some output

/-- Embeds `Vm::cycle` (src/vm.rs): fetch at PC (halt when past the end of
ROM), interpret, then increment the wrapping PC. -/
def Vm.cycle (vm : Vm) : Option BError × Vm × List CbEvent :=
  let pcval := vm.pc
  match vm.rom[pcval]? with
  | none => (some (.ExecutionHaltedError pcval), vm, [])
  | some inst =>
    match vm.interpret_instruction inst with
    | (some e, vm2, ev) => (some e, vm2, ev)
    | (none, vm2, ev) => (none, { vm2 with pc := (vm2.pc + 1) % 65536 }, ev)

/-! ## src/vm.rs: `VmDescription`, `Vm::new`, serialization -/

/-- Embeds `VmDescription` from src/vm.rs.  `mem` is the boxed
65,536-word RAM array as a list, `regs` the six `A,D,E,F,G,H` init values.
`callbacks` keeps only the addresses (the closures are not data). -/
structure VmDescription where
  pc : Nat
  rom : List Nat
  mem : List Nat
  callbacks : List Nat
  rom_mappings : List (Nat × Nat × Nat)
  regs : List Nat
  rom_blocks : List (Nat × Nat)
deriving DecidableEq, Repr

/-- Embeds `VmDescription::default` (src/vm.rs). -/
def VmDescription.default : VmDescription :=
  ⟨0, [], List.replicate RAM_LEN 0, [], [], List.replicate 6 0, []⟩

/-- `u16::to_be_bytes` on a word (`v < 65536`). -/
def toBeBytes (v : Nat) : List Nat := [v / 256, v % 256]

/-- `u16::from_be_bytes` on two bytes. -/
def fromBeBytes (b0 b1 : Nat) : Nat := b0 * 256 + b1

/-- One ROM mapping as serialized by `VmDescription::serialize`
(src/vm.rs): 2 bytes rom address, 2 bytes length, 2 bytes ram address,
one `0x00` separator. -/
def mappingBytes (m : Nat × Nat × Nat) : List Nat :=
  toBeBytes m.1 ++ toBeBytes m.2.1 ++ toBeBytes m.2.2 ++ [0x00]

/-- The byte stream `VmDescription::serialize` (src/vm.rs) emits: magic
`BVM\0`, PC, separator, six registers, separator, `RMP\0`, mapping count,
separator, the mappings, `\0ROM\0`, ROM length, separator, ROM words,
`\0RAM\0`, RAM words. -/
def vmDescBytes (d : VmDescription) : List Nat :=
  [0x42, 0x56, 0x4d, 0x00]
    ++ ((toBeBytes d.pc ++ [0x00])
    ++ ((d.regs.flatMap toBeBytes ++ [0x00])
    ++ ([0x52, 0x4d, 0x50, 0x00]
    ++ ((toBeBytes d.rom_mappings.length ++ [0x00])
    ++ ((d.rom_mappings.flatMap mappingBytes ++ [0x00])
    ++ ([0x52, 0x4f, 0x4d, 0x00]
    ++ ((toBeBytes d.rom.length ++ [0x00])
    ++ ((d.rom.flatMap toBeBytes ++ [0x00])
    ++ ([0x52, 0x41, 0x4d, 0x00]
    ++ d.mem.flatMap toBeBytes)))))))))

/-- Embeds `VmDescription::serialize` (src/vm.rs): emits `vmDescBytes`,
and errors when there are more than `0xffff` mappings or ROM words. -/
def VmDescription.serialize (d : VmDescription) : Except BError (List Nat) :=
  if d.rom_mappings.length > 0xffff then
    .error (.SerializationError "The number of ROM mappings to be written is to large")
  else if d.rom.length > 0xffff then
    .error (.SerializationError "The ROM to be written is to large")
  else
    .ok (vmDescBytes d)

/-- The ROM-mapping loop of `VmDescription::deserialize` (src/vm.rs): the
Rust code reads bytes `7*i .. 7*i+6` of the checked region for
`i = 0 .. amount`; here each step reads the head 7 bytes and recurses on
the rest, which visits the same bytes. -/
def readMappings : Nat → List Nat → Except BError (List (Nat × Nat × Nat))
  | 0, _ => .ok []
  | n + 1, region =>
    let rom_addr := fromBeBytes (region.getD 0 0) (region.getD 1 0)
    let length := fromBeBytes (region.getD 2 0) (region.getD 3 0)
    let ram_addr := fromBeBytes (region.getD 4 0) (region.getD 5 0)
    if region.getD 6 0 ≠ 0 then
      .error (.DeserializationError "Invalid region separators")
    else do
      let rest ← readMappings n (region.drop 7)
      .ok ((rom_addr, length, ram_addr) :: rest)

/-- The word-reading loops of `VmDescription::deserialize` (src/vm.rs):
read `count` big-endian `u16` values from consecutive byte pairs. -/
def readWords : Nat → List Nat → List Nat
  | 0, _ => []
  | n + 1, region =>
    fromBeBytes (region.getD 0 0) (region.getD 1 0) :: readWords n (region.drop 2)

/-- Embeds `VmDescription::deserialize` (src/vm.rs), section by section in
source order; `callbacks` and `rom_blocks` of the result are empty. -/
def VmDescription.deserialize (input : List Nat) : Except BError VmDescription := do
  let current := input
  let magic ← check_slice current 4
  if magic ≠ [0x42, 0x56, 0x4d, 0x00] then
    throw (.DeserializationError "Invalid file format")
  let current := current.drop 4
  let pc_nums ← check_slice current 3
  let pc ← extract_number pc_nums
  let current := current.drop 3
  let reg_num ← check_slice current 13
  if reg_num.getD 12 0 ≠ 0 then
    throw (.DeserializationError "Invalid region separators")
  let regs := readWords 6 reg_num
  let current := current.drop 13
  let magic2 ← check_slice current 4
  if magic2 ≠ [0x52, 0x4d, 0x50, 0x00] then
    throw (.DeserializationError "No ROM mappings")
  let current := current.drop 4
  let rma_nums ← check_slice current 3
  let rom_map_amnt ← extract_number rma_nums
  let current := current.drop 3
  let rrlen := rom_map_amnt * 7 + 1
  let rom_map_region ← check_slice current rrlen
  if rom_map_region.getD (rrlen - 1) 0 ≠ 0 then
    throw (.DeserializationError "Invalid region separators")
  let mappings ← readMappings rom_map_amnt rom_map_region
  let current := current.drop rrlen
  let magic3 ← check_slice current 4
  if magic3 ≠ [0x52, 0x4f, 0x4d, 0x00] then
    throw (.DeserializationError "No ROM")
  let current := current.drop 4
  let ra_nums ← check_slice current 3
  let rom_amnt ← extract_number ra_nums
  let current := current.drop 3
  let romlen := 2 * rom_amnt + 1
  let rom_region ← check_slice current romlen
  if rom_region.getD (romlen - 1) 0 ≠ 0 then
    throw (.DeserializationError "Invalid region separators")
  let rom := readWords rom_amnt rom_region
  let current := current.drop romlen
  let magic4 ← check_slice current 4
  if magic4 ≠ [0x52, 0x41, 0x4d, 0x00] then
    throw (.DeserializationError "No RAM")
  let current := current.drop 4
  if current.length ≠ RAM_LEN * 2 then
    throw (.DeserializationError "Invalid RAM length")
  let mem := readWords RAM_LEN current
  pure ⟨pc, rom, mem, [], mappings, regs, []⟩

/-- The inner copy loop of `Vm::new` (src/vm.rs): copy `length` ROM words
starting at `sl` into RAM at `ad`, failing with a `MapError` when the span
leaves the ROM. -/
def copyRomRegionAux (rom : List Nat) (sl ad length i : Nat) (ram : List Nat) :
    Except BError (List Nat) :=
  if i < length then
    match rom[i + sl]? with
    | some v => copyRomRegionAux rom sl ad length (i + 1) (ram.set (ad + i) v)
    | none => .error (.MapError "invalid span in rom")
  else
    .ok ram
termination_by length - i

/-- The `rom_mappings` loop of `Vm::new` (src/vm.rs): bounds check, copy
the ROM span into RAM, and add a `Read` region `(addr, addr + length)`
(the `u16` sum wraps). -/
def setupMappings (rom : List Nat) :
    List (Nat × Nat × Nat) → List Nat → List (Region Nat AccessLevels) →
    Except BError (List Nat × List (Region Nat AccessLevels))
  | [], ram, regions => .ok (ram, regions)
  | (source_low, length, addr) :: rest, ram, regions =>
    if addr + length > RAM_LEN then
      .error (.OutOfBoundsError addr length RAM_LEN)
    else do
      let ram ← copyRomRegionAux rom source_low addr length 0 ram
      setupMappings rom rest ram
        (regions ++ [Region.mk addr ((addr + length) % 65536) .Read])

/-- The `rom_blocks` loop of `Vm::new` (src/vm.rs): bounds check and add a
`Read` region `(addr, addr + length)` (cast back to `u16`). -/
def setupBlocks :
    List (Nat × Nat) → List (Region Nat AccessLevels) →
    Except BError (List (Region Nat AccessLevels))
  | [], regions => .ok regions
  | (addr, length) :: rest, regions =>
    let start := addr
    let stop := start + length
    if start > RAM_LEN || stop > RAM_LEN then
      .error (.OutOfBoundsError addr length RAM_LEN)
    else
      setupBlocks rest (regions ++ [Region.mk (start % 65536) (stop % 65536) .Read])

/-- Embeds `Vm::new` (src/vm.rs): apply the ROM mappings to RAM, turn
mappings and `rom_blocks` into `Read` regions, build the region map
(`MemoryUnit::new` / `Ram::new`), and register the callbacks. -/
def Vm.new (description : VmDescription) : Except BError Vm := do
  let (ram, regions) ←
    setupMappings description.rom description.rom_mappings description.mem []
  let regions ← setupBlocks description.rom_blocks regions
  let rmap ← RegionMap.tryFrom regions
  let mem : MemoryUnit :=
    { a := description.regs.getD 0 0
      d := description.regs.getD 1 0
      e := description.regs.getD 2 0
      f := description.regs.getD 3 0
      g := description.regs.getD 4 0
      h := description.regs.getD 5 0
      ram := { ram := ram, write_callbacks := description.callbacks,
               memory_regions := rmap } }
  pure { pc := description.pc, rom := description.rom, mem := mem }

/-- Embeds `Vm::to_vm_desc` (src/vm.rs): snapshot the machine with no
callbacks, no mappings and no ROM blocks. -/
def Vm.to_vm_desc (vm : Vm) : VmDescription :=
  { pc := vm.pc, rom := vm.rom, mem := vm.mem.ram.ram, callbacks := [],
    rom_mappings := [],
    regs := [vm.mem.a, vm.mem.d, vm.mem.e, vm.mem.f, vm.mem.g, vm.mem.h],
    rom_blocks := [] }

/-! ## src/debugger.rs -/

/-- Embeds `Debugger` from src/debugger.rs.  The breakpoint `HashSet` is a
list (its Rust iteration order is unspecified; the list fixes one order).
The optional UART and its output buffer play no part in serialization and
are omitted. -/
structure Debugger where
  vm : Vm
  breakpoints : List Nat
  halted : Bool
deriving Repr

/-- Embeds `Debugger::serialize` (src/debugger.rs): magic `BDB\0BPS\0`,
2-byte breakpoint count, `0x00` separator, the breakpoints (big-endian),
`0x00` separator, then the serialized VM image. -/
def Debugger.serialize (d : Debugger) : Except BError (List Nat) :=
  if d.breakpoints.length > 0xffff then
    .error (.SerializationError "Number of breakpoints to large")
  else do
    let vm_ser ← d.vm.to_vm_desc.serialize
    pure ([0x42, 0x44, 0x42, 0x00, 0x42, 0x50, 0x53, 0x00]
      ++ toBeBytes d.breakpoints.length ++ [0x00]
      ++ d.breakpoints.flatMap toBeBytes ++ [0x00]
      ++ vm_ser)

/-- Embeds `Debugger::deserialize` (src/debugger.rs): check a 4-byte magic
`BDB\0`, read the breakpoint count and breakpoints, then deserialize the
embedded VM image and construct the VM. -/
def Debugger.deserialize (input : List Nat) : Except BError Debugger := do
  let current := input
  let magic ← check_slice current 4
  if magic ≠ [0x42, 0x44, 0x42, 0x00] then
    throw (.DeserializationError "Invalid file format")
  let current := current.drop 4
  let bp_nums ← check_slice current 3
  let bp_amount ← extract_number bp_nums
  let current := current.drop 3
  let bp_len := 2 * bp_amount + 1
  let bp_region ← check_slice current bp_len
  if bp_region.getD (bp_len - 1) 0 ≠ 0 then
    throw (.DeserializationError "Invalid region separators")
  let breakpoints := readWords bp_amount bp_region
  let current := current.drop bp_len
  let vmd ← VmDescription.deserialize current
  let vm ← Vm.new vmd
  pure { vm := vm, breakpoints := breakpoints, halted := false }

/-! ## src/assembler.rs

Assembly text is modelled line by line as `List Char` (the sources are
ASCII).  Rust functions that can panic (slice indexing, `HashMap`
indexing) return the `panicked` outcome of `RRes`. -/

/-- Outcome of a Rust computation that may also panic. -/
inductive RRes (α : Type) where
  | panicked
  | err (e : BError)
  | ok (a : α)
deriving Repr

/-- Sequencing for `RRes`: a panic or error aborts the computation. -/
def RRes.bind {α β : Type} : RRes α → (α → RRes β) → RRes β
  | .panicked, _ => .panicked
  | .err e, _ => .err e
  | .ok a, f => f a

/-- ASCII whitespace, standing in for Rust `char::is_whitespace` on the
ASCII assembly sources. -/
def charIsWs (c : Char) : Bool :=
  c = ' ' || c = '\t' || c = '\n' || c = '\r'

/-- Drop leading whitespace. -/
def trimLeftChars : List Char → List Char
  | [] => []
  | c :: rest => if charIsWs c then trimLeftChars rest else c :: rest

/-- Rust `str::trim`: drop leading and trailing whitespace. -/
def trimChars (s : List Char) : List Char :=
  (trimLeftChars (trimLeftChars s).reverse).reverse

/-- Rust `str::starts_with`. -/
def startsWithChars : List Char → List Char → Bool
  | [], _ => true
  | _ :: _, [] => false
  | p :: ps, c :: cs => p = c && startsWithChars ps cs

/-- Rust `str::ends_with`. -/
def endsWithChars (suf s : List Char) : Bool :=
  startsWithChars suf.reverse s.reverse

/-- Rust `str::split` on a single separator character: every occurrence
splits, empty pieces included. -/
def splitOnChar (sep : Char) : List Char → List (List Char)
  | [] => [[]]
  | c :: rest =>
    if c = sep then
      [] :: splitOnChar sep rest
    else
      match splitOnChar sep rest with
      | t :: ts => (c :: t) :: ts
      | [] => [[c]]

/-- The `RE_NAME` matcher (src/assembler.rs): one or more characters from
`[a-zA-Z._]`. -/
def reName (s : List Char) : Bool :=
  !s.isEmpty && s.all (fun c => c.isAlpha || c = '.' || c = '_')

/-- Hexadecimal digit test for the `RE_NUMBER_LIT` matcher. -/
def charIsHexDigit (c : Char) : Bool :=
  c.isDigit || ('a' ≤ c && c ≤ 'f') || ('A' ≤ c && c ≤ 'F')

/-- The `RE_NUMBER_LIT` matcher (src/assembler.rs):
`^(0x[0-9a-fA-F]+|0b[01]+|[0-9]+)?$` — note that it also accepts the
empty string. -/
def reNumberLit (s : List Char) : Bool :=
  s.isEmpty ||
  (startsWithChars ['0', 'x'] s && !(s.drop 2).isEmpty &&
    (s.drop 2).all charIsHexDigit) ||
  (startsWithChars ['0', 'b'] s && !(s.drop 2).isEmpty &&
    (s.drop 2).all (fun c => c = '0' || c = '1')) ||
  (!s.isEmpty && s.all Char.isDigit)

/-- Value of one digit, for `u16::from_str_radix`. -/
def hexDigitVal (c : Char) : Option Nat :=
  if c.isDigit then some (c.toNat - 48)
  else if 'a' ≤ c && c ≤ 'f' then some (c.toNat - 87)
  else if 'A' ≤ c && c ≤ 'F' then some (c.toNat - 55)
  else none

/-- Digit-accumulation loop of `u16::from_str_radix`. -/
def parseRadixAux (radix : Nat) (acc : Nat) : List Char → Option Nat
  | [] => some acc
  | c :: rest =>
    match hexDigitVal c with
    | some v => if v < radix then parseRadixAux radix (acc * radix + v) rest else none
    | none => none

/-- Rust `u16::from_str_radix`: an optional leading `+`, then one or more
digits of the radix; fails on empty input, a foreign digit, or overflow
past `0xffff`. -/
def fromStrRadix (radix : Nat) (s : List Char) : Option Nat :=
  let digits := match s with
    | '+' :: rest => rest
    | other => other
  if digits.isEmpty then none
  else
    match parseRadixAux radix 0 digits with
    | some v => if v > 0xffff then none else some v
    | none => none

/-- Embeds `number_literal_to_u16` (src/util.rs): `0x` hexadecimal, `0b`
binary, otherwise decimal. -/
def number_literal_to_u16 (input : List Char) : Except Unit Nat :=
  let r :=
    if startsWithChars ['0', 'x'] input then fromStrRadix 16 (input.drop 2)
    else if startsWithChars ['0', 'b'] input then fromStrRadix 2 (input.drop 2)
    else fromStrRadix 10 input
  match r with
  | some v => .ok v
  | none => .error ()

/-- Embeds `Register::from_str` (src/vm.rs). -/
def Register.from_str (input : List Char) : Option Register :=
  if input = ['A'] then some .A
  else if input = ['*', 'A'] then some .MA
  else if input = ['D'] then some .D
  else if input = ['E'] then some .E
  else if input = ['F'] then some .F
  else if input = ['G'] then some .G
  else if input = ['H'] then some .H
  else none

/-- Embeds the `Jumps` enum of the text processor (src/assembler.rs). -/
inductive Jumps where
  | None
  | Jlt
  | Jeq
  | Jgt
  | Jle
  | Jge
  | Jmp
  | Jne
deriving DecidableEq, Repr

/-- Embeds `Jumps::set_alu_inst` (src/assembler.rs): write the `eq`
(bit 1), `gt` (bit 0) and `lt` (bit 2) flags of the instruction word, in
that order, with the values the source assigns for each condition.  Note
that the source gives `Jge` the same `(eq, gt, lt)` assignment as `Jle`:
`eq=true, gt=false, lt=true`. -/
def Jumps.set_alu_inst (j : Jumps) (alu_inst : Nat) : Nat :=
  match j with
  | .None => setBitTo (setBitTo (setBitTo alu_inst 1 false) 0 false) 2 false
  | .Jlt => setBitTo (setBitTo (setBitTo alu_inst 1 false) 0 false) 2 true
  | .Jeq => setBitTo (setBitTo (setBitTo alu_inst 1 true) 0 false) 2 false
  | .Jgt => setBitTo (setBitTo (setBitTo alu_inst 1 false) 0 true) 2 false
  | .Jle => setBitTo (setBitTo (setBitTo alu_inst 1 true) 0 false) 2 true
  | .Jge => setBitTo (setBitTo (setBitTo alu_inst 1 true) 0 false) 2 true
  | .Jmp => setBitTo (setBitTo (setBitTo alu_inst 1 true) 0 true) 2 true
  | .Jne => setBitTo (setBitTo (setBitTo alu_inst 1 false) 0 true) 2 true

/-- Embeds `Jumps::parse_str` (src/assembler.rs). -/
def Jumps.parse_str (input : List Char) : Option Jumps :=
  if input = ['J', 'L', 'T'] then some .Jlt
  else if input = ['J', 'G', 'T'] then some .Jgt
  else if input = ['J', 'E', 'Q'] then some .Jeq
  else if input = ['J', 'L', 'E'] then some .Jle
  else if input = ['J', 'G', 'E'] then some .Jge
  else if input = ['J', 'M', 'P'] then some .Jmp
  else if input = ['J', 'N', 'E'] then some .Jne
  else none

/-- Embeds the `XOps` enum of the text processor (src/assembler.rs). -/
inductive XOps where
  | A
  | MA
  | D
  | E
  | F
  | G
  | H
  | Zero
deriving DecidableEq, Repr

/-- Embeds `XOps::from_str` (src/assembler.rs). -/
def XOps.from_str (input : List Char) : Option XOps :=
  if input = ['A'] then some .A
  else if input = ['*', 'A'] then some .MA
  else if input = ['D'] then some .D
  else if input = ['E'] then some .E
  else if input = ['F'] then some .F
  else if input = ['G'] then some .G
  else if input = ['H'] then some .H
  else if input = ['0'] then some .Zero
  else none

/-- Embeds the `Cmds` enum of the text processor (src/assembler.rs). -/
inductive Cmds where
  | And
  | Or
  | Xor
  | Add
  | Sub
  | Inc
  | Dec
  | Not
  | Lsl
  | Lsr
  | Asr
  | Rol
  | Ror
deriving DecidableEq, Repr

/-- Lower-case a line fragment (ASCII), for `str::to_lowercase`. -/
def toLowerChars (s : List Char) : List Char := s.map Char.toLower

/-- Embeds `Cmds::from_str` (src/assembler.rs).  The source maps the
mnemonic string `rol` to the `Ror` variant and `ror` to `Rol` (they are
swapped in the source). -/
def Cmds.from_str (input : List Char) : Option Cmds :=
  let l := toLowerChars input
  if l = ['a', 'n', 'd'] then some .And
  else if l = ['o', 'r'] then some .Or
  else if l = ['x', 'o', 'r'] then some .Xor
  else if l = ['a', 'd', 'd'] then some .Add
  else if l = ['s', 'u', 'b'] then some .Sub
  else if l = ['i', 'n', 'c'] then some .Inc
  else if l = ['d', 'e', 'c'] then some .Dec
  else if l = ['n', 'o', 't'] then some .Not
  else if l = ['l', 's', 'l'] then some .Lsl
  else if l = ['l', 's', 'r'] then some .Lsr
  else if l = ['a', 's', 'r'] then some .Asr
  else if l = ['r', 'o', 'l'] then some .Ror
  else if l = ['r', 'o', 'r'] then some .Rol
  else none

/-- Embeds `Cmds::arg_num` (src/assembler.rs). -/
def Cmds.arg_num : Cmds → Nat
  | .And | .Or | .Xor | .Add | .Sub => 2
  | _ => 1

/-- Embeds `parse_two` (src/assembler.rs): derive `(x, sw, zx)` from the
two operands of a binary mnemonic; one operand must be `A`, or the pair
must be `(0, y)`. -/
def parse_two (a b : List Char) : Option (XOps × Bool × Bool) :=
  match (if a = ['0'] then XOps.from_str b else none) with
  | some xop => some (xop, true, true)
  | none =>
    match (if a = ['A'] then XOps.from_str b else none) with
    | some xop => some (xop, true, false)
    | none =>
      match (if b = ['A'] then XOps.from_str a else none) with
      | some xop => some (xop, false, false)
      | none => none

/-- Embeds `set_source` (src/assembler.rs): the `Zero` operand sets the
`zx` bit, a register operand is stored in the `source` field. -/
def set_source (x : XOps) (inst : Nat) : Nat :=
  match x with
  | .Zero => setBitTo inst 6 true
  | .A => setBitsTo inst 12 3 Register.A.code
  | .MA => setBitsTo inst 12 3 Register.MA.code
  | .D => setBitsTo inst 12 3 Register.D.code
  | .E => setBitsTo inst 12 3 Register.E.code
  | .F => setBitsTo inst 12 3 Register.F.code
  | .G => setBitsTo inst 12 3 Register.G.code
  | .H => setBitsTo inst 12 3 Register.H.code

/-- `usize::MAX`, for the bitwise complement the source applies in its
(ineffective) operand-arity check `!inputs.len() == cmd.arg_num()`. -/
def USIZE_MAX : Nat := 18446744073709551615

/-- Embeds the `AssemblerOutput` intermediate of the text pass
(src/assembler.rs); the `HashMap`s become association lists in insertion
order. -/
structure AssemblerOutput where
  rom : List Nat
  label_definitions : List (List Char × Nat)
  label_uses : List (List Char × List Nat)
  rom_lines : Nat
deriving DecidableEq, Repr

namespace text_processor

/-- The character scan of `assemble` (src/assembler.rs) that cuts an
instruction line at `=` and `;` into parts, rejecting a second `=` or `;`
and an `=` after a `;`. -/
def splitParts : List Char → Bool → Bool → List (List Char) → List Char →
    Except BError (List (List Char) × Bool × Bool)
  | [], seen_eq, seen_sc, parts, current => .ok (parts ++ [current], seen_eq, seen_sc)
  | c :: rest, seen_eq, seen_sc, parts, current =>
    if c = '=' then
      if seen_eq || seen_sc then .error (.AsmParseError "sections wrong")
      else splitParts rest true seen_sc (parts ++ [current]) []
    else if c = ';' then
      if seen_sc then .error (.AsmParseError "sections wrong")
      else splitParts rest seen_eq true (parts ++ [current]) []
    else
      splitParts rest seen_eq seen_sc parts (current ++ [c])

/-- The mutable state of the text-pass loop (src/assembler.rs):
`label_definitions`, `label_uses` and the output `mem`. -/
structure AsmState where
  label_definitions : List (List Char × Nat)
  label_uses : List (List Char × List Nat)
  mem : List Nat
deriving DecidableEq, Repr

/-- Append a use position to the entry of `name` in `label_uses`
(the `get_mut` branch of the label-use case in src/assembler.rs). -/
def pushUse (m : List (List Char × List Nat)) (name : List Char) (pos : Nat) :
    List (List Char × List Nat) :=
  m.map (fun p => if p.1 = name then (p.1, p.2 ++ [pos]) else p)

/-- The `match cmd` instruction builder of `assemble` (src/assembler.rs):
assembles the ALU word for a mnemonic from its operands, jump condition
and target.  Missing operands panic in Rust (`inputs[0]` / `inputs[1]`). -/
def buildAluWord (cmd : Cmds) (inputs : List (List Char)) (jump : Jumps)
    (target : Register) : RRes Nat :=
  match cmd with
  | .Add | .Sub =>
    match inputs with
    | i0 :: i1 :: _ =>
      match parse_two i0 i1 with
      | none => .err (.AsmParseError "one or both operands invalid")
      | some (x, sw, zx) =>
        if x = XOps.Zero then
          .err (.AsmParseError "right operand may not be zero here")
        else
          let inst := setBitTo 0 7 sw
          let inst := set_source x inst
          let inst := setBitTo inst 6 zx
          let inst := setBitsTo inst 8 3 (match cmd with | .Sub => 0b001 | _ => 0b000)
          let inst := jump.set_alu_inst inst
          let inst := setBitsTo inst 3 3 target.code
          let inst := setBitTo inst 11 true
          .ok inst
    | _ => .panicked
  | .Asr | .Inc | .Dec =>
    match inputs with
    | i0 :: _ =>
      match XOps.from_str i0 with
      | none => .err (.AsmParseError "invalid operand")
      | some x =>
        let inst := set_source x 0
        let inst := jump.set_alu_inst inst
        let inst := setBitsTo inst 8 3
          (match cmd with | .Asr => 0b100 | .Inc => 0b010 | .Dec => 0b011 | _ => 0b000)
        let inst := setBitTo inst 11 true
        let inst := setBitsTo inst 3 3 target.code
        .ok inst
    | [] => .panicked
  | .And | .Or | .Xor =>
    match inputs with
    | i0 :: i1 :: _ =>
      match parse_two i0 i1 with
      | none => .err (.AsmParseError "one or both operands invalid")
      | some (x, sw, zx) =>
        if x = XOps.Zero then
          .err (.AsmParseError "right operand may not be zero here")
        else
          let inst := setBitTo 0 7 sw
          let inst := set_source x inst
          let inst := setBitTo inst 6 zx
          let inst := setBitsTo inst 8 3
            (match cmd with | .And => 0b000 | .Or => 0b001 | .Xor => 0b010 | _ => 0b000)
          let inst := jump.set_alu_inst inst
          let inst := setBitsTo inst 3 3 target.code
          let inst := setBitTo inst 11 false
          .ok inst
    | _ => .panicked
  | .Not | .Lsl | .Lsr | .Rol | .Ror =>
    match inputs with
    | i0 :: _ =>
      match XOps.from_str i0 with
      | none => .err (.AsmParseError "invalid operand")
      | some x =>
        let inst := set_source x 0
        let inst := jump.set_alu_inst inst
        let inst := setBitsTo inst 8 3
          (match cmd with
           | .Not => 0b011 | .Lsl => 0b100 | .Lsr => 0b101
           | .Rol => 0b110 | .Ror => 0b111 | _ => 0)
        let inst := setBitTo inst 11 false
        let inst := setBitsTo inst 3 3 target.code
        .ok inst
    | [] => .panicked

/-- One iteration of the line loop of `assemble` (src/assembler.rs):
comments and blank lines are skipped, `label NAME:` records a definition,
a lone `JMP` emits the always-jump word, otherwise the line is cut at
`=` / `;` and assembled. -/
def processLine (st : AsmState) (line : List Char) : RRes AsmState :=
  let trline := trimChars line
  if startsWithChars ['#'] trline then .ok st
  else if trline.isEmpty then .ok st
  else if startsWithChars "label".toList trline then
    if !endsWithChars [':'] trline then .err (.AsmParseError "incorrect label")
    else
      let label := trimChars (trline.drop 5).dropLast
      if !reName label then .err (.AsmParseError "incorrect label")
      else if (List.lookup label st.label_definitions).isSome then
        .err (.AsmParseError "label already in use")
      else
        .ok { st with label_definitions :=
                st.label_definitions ++ [(label, st.mem.length)] }
  else if trline = "JMP".toList then
    .ok { st with mem := st.mem ++ [0b0000000000000111] }
  else
    match splitParts trline false false [] [] with
    | .error e => .err e
    | .ok (parts, seen_eq, seen_sc) =>
      RRes.bind (if seen_eq then
        match parts with
        | [] => (.panicked : RRes (Register × List (List Char)))
        | tgt_str :: rest =>
          match Register.from_str (trimChars tgt_str) with
          | some t => .ok (t, rest)
          | none => .err (.AsmParseError "improper target")
      else .ok (Register.None, parts)) fun (target, psl) =>
      RRes.bind (if seen_sc then
        match psl[1]? with
        | none => (.err (.AsmParseError "conditional jump without computation") :
            RRes (Jumps × List (List Char)))
        | some jmp_str =>
          match Jumps.parse_str (trimChars jmp_str) with
          | some j => .ok (j, psl.dropLast)
          | none => .err (.AsmParseError "improper jump")
      else .ok (Jumps.None, psl)) fun (jump, psl) =>
      if psl.length ≠ 1 then .err (.AsmParseError "no operation")
      else
        match splitOnChar ',' (psl.headD []) with
        | [] => .err (.AsmParseError "no operation or number")
        | cmd0 :: inputsRaw =>
          let cmd_or_lit := trimChars cmd0
          let inputs := inputsRaw.map trimChars
          match Cmds.from_str cmd_or_lit with
          | some cmd =>
            if USIZE_MAX - inputs.length = cmd.arg_num then
              .err (.AsmParseError "not enough arguments for operation")
            else
              RRes.bind (buildAluWord cmd inputs jump target) fun v =>
              .ok { st with mem := st.mem ++ [v] }
          | none =>
            if reNumberLit cmd_or_lit then
              match number_literal_to_u16 cmd_or_lit with
              | .error _ => .err (.AsmParseError "unable to parse as a number")
              | .ok value =>
                if value > 0x7fff then .err (.AsmParseError "is to large")
                else .ok { st with mem := st.mem ++ [Nat.lor value BIT_15] }
            else
              match List.lookup cmd_or_lit st.label_uses with
              | some _ =>
                .ok { st with
                  label_uses := pushUse st.label_uses cmd_or_lit st.mem.length,
                  mem := st.mem ++ [Nat.lor 0 BIT_15] }
              | none =>
                if !reName cmd_or_lit then .err (.AsmParseError "cant parse")
                else
                  .ok { st with
                    label_uses := st.label_uses ++ [(cmd_or_lit, [st.mem.length])],
                    mem := st.mem ++ [Nat.lor 0 BIT_15] }

/-- The line loop of `assemble` (src/assembler.rs). -/
def assembleLines (st : AsmState) : List (List Char) → RRes AsmState
  | [] => .ok st
  | line :: rest => RRes.bind (processLine st line) fun st2 => assembleLines st2 rest

/-- Embeds `text_processor::assemble` (src/assembler.rs) on the list of
lines of the `[text]` section: run the line loop from an empty state,
append the final padding `Data(0)` word, and reject programs longer than
`0xffff` words.  `rom_lines` is the last enumerated line index. -/
def assemble (code : List (List Char)) (code_offset : Nat) : RRes AssemblerOutput :=
  RRes.bind (assembleLines ⟨[], [], []⟩ code) fun st =>
  let mem := st.mem ++ [Nat.lor 0 BIT_15]
  if mem.length > 0xffff then .err (.AsmParseError "your program is to large")
  else .ok ⟨mem, st.label_definitions, st.label_uses, code.length - 1⟩

end text_processor

namespace const_processor

/-- The `[consts]` line loop of `find_and_place` (src/assembler.rs):
`label NAME:` defines a label at `mount_position + consts_amount`, a line
starting with `M` and containing `=` appends the parsed value to the ROM,
comments and blank lines are skipped, anything else is rejected.  A line
starting with `M` but containing no `=` is silently ignored. -/
def constLoop (label_definitions : List (List Char × Nat)) (mem : List Nat)
    (consts_amount : Nat) (mount_position : Nat) :
    List (List Char) → RRes (List (List Char × Nat) × List Nat)
  | [] => .ok (label_definitions, mem)
  | line :: rest =>
    let s := trimChars line
    if startsWithChars "label".toList s then
      if !endsWithChars [':'] s then .err (.AsmParseError "incorrect label")
      else
        let label := trimChars (s.drop 5).dropLast
        if !reName label then .err (.AsmParseError "incorrect label")
        else if (List.lookup label label_definitions).isSome then
          .err (.AsmParseError "label already in use")
        else
          constLoop (label_definitions ++ [(label, mount_position + consts_amount)])
            mem consts_amount mount_position rest
    else if startsWithChars ['M'] s then
      match (splitOnChar '=' s)[1]? with
      | some number =>
        let tnum := trimChars number
        if !reNumberLit tnum then .err (.AsmParseError "invalid number")
        else
          match number_literal_to_u16 tnum with
          | .error _ => .err (.AsmParseError "invalid number")
          | .ok value =>
            constLoop label_definitions (mem ++ [value]) (consts_amount + 1)
              mount_position rest
      | none => constLoop label_definitions mem consts_amount mount_position rest
    else if startsWithChars ['#'] s then
      constLoop label_definitions mem consts_amount mount_position rest
    else if s.isEmpty then
      constLoop label_definitions mem consts_amount mount_position rest
    else
      .err (.AsmParseError "only comments, labels and memory allowed")

/-- The inner positions loop of the second pass (src/assembler.rs): OR the
resolved label value into the word at each use position; a resolved value
above `0x7fff` is an error; `mem.get_mut(pos).unwrap()` panics when the
position is out of range. -/
def orInto (mem : List Nat) (value : Nat) : List Nat → RRes (List Nat)
  | [] => .ok mem
  | pos :: rest =>
    if value > 0x7fff then
      .err (.AsmParseError "error when inserting labels: value is to large")
    else if pos < mem.length then
      orInto (mem.set pos (Nat.lor (mem.getD pos 0) value)) value rest
    else
      .panicked

/-- The second pass of `find_and_place` (src/assembler.rs): for every
recorded label use, look the name up in `label_definitions` — the Rust
code indexes the `HashMap` directly, which panics when the name was never
defined — and OR the value into each use position. -/
def secondPass (label_definitions : List (List Char × Nat)) (mem : List Nat) :
    List (List Char × List Nat) → RRes (List Nat)
  | [] => .ok mem
  | (name, positions) :: rest =>
    match List.lookup name label_definitions with
    | none => .panicked
    | some value =>
      RRes.bind (orInto mem value positions) fun mem2 =>
      secondPass label_definitions mem2 rest

/-- Embeds `const_processor::find_and_place` (src/assembler.rs): pad the
ROM with `0xf - len % 0x10` zero words, stream the `[consts]` lines,
enforce the total-size bound, run the label second pass, and emit the
image with the single mapping `(consts_start, memlen - consts_start,
mount_position)`. -/
def find_and_place (asm : AssemblerOutput) (constants : List (List Char))
    (const_offset : Nat) (mount_position : Nat) : RRes VmDescription :=
  let label_definitions := asm.label_definitions
  let mem := asm.rom
  let more := 0xf - mem.length % 0x10
  let mem := mem ++ List.replicate more 0
  let consts_start := mem.length
  RRes.bind (constLoop label_definitions mem 0 mount_position constants) fun p =>
  let memlen := p.2.length
  if memlen > 0xffff then .err (.AsmParseError "your program is to large")
  else
    RRes.bind (secondPass p.1 p.2 asm.label_uses) fun mem2 =>
    .ok { VmDescription.default with
            rom := mem2,
            rom_mappings := [(consts_start, memlen - consts_start, mount_position)] }

end const_processor

/-! ## Concrete fixtures used by the witnesses and scenario claims -/

/-- Unrestricted RAM holding all zeroes (the `MemoryUnit::default`
backing store). -/
def ramZero : Ram :=
  { ram := List.replicate RAM_LEN 0, write_callbacks := [], memory_regions := ⟨[]⟩ }

/-- A memory unit with all registers zero and zeroed RAM. -/
def memZero : MemoryUnit := ⟨0, 0, 0, 0, 0, 0, ramZero⟩

/-- The scenario S1 machine: ROM `[0x9234, 0x0000]`, PC 0, registers 0. -/
def vmS1 : Vm := ⟨0, [0x9234, 0x0000], memZero⟩

/-- A machine with empty ROM (its first cycle halts). -/
def vmEmpty : Vm := ⟨0, [], memZero⟩

/-- The `[text]` line `D = add, 0, A ; JGE`. -/
def jgeLine : List Char := "D = add, 0, A ; JGE".toList

/-- The ALU word the assembler emits for `D = add, 0, A ; JGE`:
`sw`, `zx`, `u` set, source `A`, target `D`, op `add`, and the jump
flags the source assigns to `JGE`. -/
def jgeWord : Nat := 6366

/-- A `[text]` section consisting of the single line `foo`: a label use
that is never defined. -/
def fooLine : List Char := "foo".toList

/-- The text-pass output for the undefined-label program `[fooLine]`. -/
def fooAsm : AssemblerOutput := ⟨[32768, 32768], [], [(fooLine, [0])], 0⟩

/-- A one-word text-pass output (the padding word of an empty `[text]`
section), used to exhibit the const-block alignment. -/
def asmW : AssemblerOutput := ⟨[32768], [], [], 0⟩

/-- The image `find_and_place` produces from `asmW` with no constants and
mount point `0xfff0`. -/
def dW : VmDescription :=
  { VmDescription.default with
      rom := [32768] ++ List.replicate 14 0,
      rom_mappings := [(15, 0, 65520)] }

/-- A debugger session wrapping the S1 machine, with no breakpoints. -/
def dbgW : Debugger := { vm := vmS1, breakpoints := [], halted := false }

/-- A machine about to execute the always-jump word `0b111` with `A = 0`:
the branch is taken with branch target 0. -/
def vmJmp : Vm := ⟨0, [0b0000000000000111], memZero⟩

/-- Two disjoint access regions: `[0x100, 0x1ff]` read-only and
`[0x200, 0x2ff]` inaccessible (the regions of the `test_ram` test in
src/vm.rs). -/
def rsW : List (Region Nat AccessLevels) :=
  [Region.mk 0x100 0x1ff AccessLevels.Read,
   Region.mk 0x200 0x2ff AccessLevels.None]

/-- The region map built from `rsW` (already sorted by start). -/
def mW : RegionMap Nat AccessLevels := ⟨rsW⟩

/-- RAM backed by an array of sevens, governed by `mW`. -/
def ramW : Ram := ⟨List.replicate 768 7, [], mW⟩

/-- A memory unit over `ramW` whose `A` register points into the `Read`
region, so a `*A` write is dropped. -/
def muW : MemoryUnit := ⟨0x150, 0, 0, 0, 0, 0, ramW⟩

/-- A concrete serializable image: two ROM words, one mapping, RAM full of
sevens. -/
def d1W : VmDescription :=
  { pc := 0x123, rom := [0x1234, 0x5678], mem := List.replicate RAM_LEN 7,
    callbacks := [], rom_mappings := [(0x123, 0x456, 0x789)],
    regs := [1, 2, 3, 4, 5, 6], rom_blocks := [] }

/-! ## Theorems -/

/-- Claim C5, counterexample: on the S1 machine (ROM `[0x9234, 0]`, PC 0,
registers 0) the second call to `cycle` does not signal `Halted`; it
returns no error at all (it executes the padding zero word). -/
theorem c5_counterexample :
    ((vmS1.cycle).2.1.cycle).1 = none ∧
    ∀ v, ¬ ((vmS1.cycle).2.1.cycle).1 = some (BError.ExecutionHaltedError v) :=
  ⟨rfl, fun _ h => nomatch h⟩

/-- Claim C5 as amended: after one cycle `A = 0x1234` and `PC = 1`; the
second cycle succeeds, leaving `A = 0x1234` and `PC = 2`; the third call
to `cycle` signals `Halted` with pc value 2. -/
theorem c5_amended :
    (vmS1.cycle).1 = none ∧
    (vmS1.cycle).2.1.mem.a = 0x1234 ∧
    (vmS1.cycle).2.1.pc = 1 ∧
    ((vmS1.cycle).2.1.cycle).1 = none ∧
    ((vmS1.cycle).2.1.cycle).2.1.mem.a = 0x1234 ∧
    ((vmS1.cycle).2.1.cycle).2.1.pc = 2 ∧
    (((vmS1.cycle).2.1.cycle).2.1.cycle).1 = some (BError.ExecutionHaltedError 2) :=
  ⟨rfl, rfl, rfl, rfl, rfl, rfl, rfl⟩

/-- Claim C6: the assembler gives the jump condition `JGE` the flag triple
`lt = 1, eq = 1, gt = 0` (the same triple as `JLE`), not the
`lt = 0, eq = 1, gt = 1` of the specification table: `Jumps::set_alu_inst`
turns a zero word into `0b110`, and the line `D = add, 0, A ; JGE`
assembles to a word whose `lt` bit (2) is set, `eq` bit (1) is set and
`gt` bit (0) is clear. -/
theorem c6_jge_emits_jle_triple :
    Jumps.parse_str ['J', 'G', 'E'] = some Jumps.Jge ∧
    Jumps.set_alu_inst Jumps.Jge 0 = 0b110 ∧
    text_processor.assemble [jgeLine] 0 = .ok ⟨[jgeWord, 32768], [], [], 0⟩ ∧
    getBit jgeWord 2 = true ∧ getBit jgeWord 1 = true ∧ getBit jgeWord 0 = false :=
  ⟨rfl, rfl, rfl, rfl, rfl, rfl⟩

/-- Claim C7: whatever `find_and_place` returns successfully, the start of
the constants block — the first component of the single emitted
`rom_mapping` — is the padded ROM length
`len + (0xf - len % 0x10)`, which is congruent to 15, never to 0,
modulo 16: the pad loop stops one word short of the 16-word boundary. -/
theorem c7_consts_start_mod16 (asm : AssemblerOutput)
    (constants : List (List Char)) (const_offset mount_position : Nat)
    (d : VmDescription)
    (hok : const_processor.find_and_place asm constants const_offset mount_position =
      .ok d) :
    ∃ len, d.rom_mappings =
        [(asm.rom.length + (0xf - asm.rom.length % 0x10), len, mount_position)] ∧
      (asm.rom.length + (0xf - asm.rom.length % 0x10)) % 16 = 15 := by
  simp only [const_processor.find_and_place] at hok
  rcases hcl : const_processor.constLoop asm.label_definitions
      (asm.rom ++ List.replicate (0xf - asm.rom.length % 0x10) 0) 0 mount_position
      constants with _ | e | p
  · rw [hcl] at hok; exact absurd hok (by simp [RRes.bind])
  · rw [hcl] at hok; exact absurd hok (by simp [RRes.bind])
  · rw [hcl] at hok
    simp only [RRes.bind] at hok
    split at hok
    · exact absurd hok (by simp)
    · rcases hsp : const_processor.secondPass p.1 p.2 asm.label_uses with _ | e | mem2
      · rw [hsp] at hok; exact absurd hok (by simp [RRes.bind])
      · rw [hsp] at hok; exact absurd hok (by simp [RRes.bind])
      · rw [hsp] at hok
        simp only [RRes.bind, RRes.ok.injEq] at hok
        subst hok
        refine ⟨p.2.length -
          (asm.rom ++ List.replicate (0xf - asm.rom.length % 0x10) 0).length, ?_, ?_⟩
        · simp [List.length_append, List.length_replicate]
        · omega

/-- Claim C7 witness: on the one-word ROM `[0x8000]` with an empty
`[consts]` section, the constants block starts at index 15. -/
theorem c7_witness :
    const_processor.find_and_place asmW [] 0 65520 = .ok dW ∧
    ∃ len, dW.rom_mappings =
        [(asmW.rom.length + (0xf - asmW.rom.length % 0x10), len, 65520)] ∧
      (asmW.rom.length + (0xf - asmW.rom.length % 0x10)) % 16 = 15 :=
  ⟨rfl, c7_consts_start_mod16 asmW [] 0 65520 dW rfl⟩

/-- Every error return of `Vm::interpret_instruction` happens before any
mutation: the machine state it hands back is the input state and no write
callback has fired. -/
theorem interpret_err_frame (vm : Vm) (inst : Nat) (e : BError) (vm' : Vm)
    (ev : List CbEvent)
    (h : vm.interpret_instruction inst = (some e, vm', ev)) :
    vm' = vm ∧ ev = [] := by
  unfold Vm.interpret_instruction at h
  repeat' split at h
  all_goals try (simp only [Prod.mk.injEq] at h; exact ⟨h.2.1.symm, h.2.2.symm⟩)
  all_goals try (simp at h)
  all_goals split at h
  all_goals
    first
      | (simp only [Prod.mk.injEq] at h; exact ⟨h.2.1.symm, h.2.2.symm⟩)
      | simp at h

/-- Claim C10: whenever `Vm::cycle` returns an error, the machine state is
unchanged: PC, the registers A, D, E, F, G, H, and the whole RAM array are
as before the call, and no write callback was invoked. -/
theorem c10_cycle_error_frame (vm : Vm) (e : BError) (vm' : Vm)
    (ev : List CbEvent) (h : vm.cycle = (some e, vm', ev)) :
    vm'.pc = vm.pc ∧ vm'.mem.a = vm.mem.a ∧ vm'.mem.d = vm.mem.d ∧
    vm'.mem.e = vm.mem.e ∧ vm'.mem.f = vm.mem.f ∧ vm'.mem.g = vm.mem.g ∧
    vm'.mem.h = vm.mem.h ∧ vm'.mem.ram.ram = vm.mem.ram.ram ∧ ev = [] := by
  have frame : vm' = vm ∧ ev = [] := by
    simp only [Vm.cycle] at h
    rcases hrom : vm.rom[vm.pc]? with _ | inst <;> simp only [hrom] at h
    · simp only [Prod.mk.injEq] at h
      exact ⟨h.2.1.symm, h.2.2.symm⟩
    · rcases hint : vm.interpret_instruction inst with ⟨oe, vm2, ev2⟩
      simp only [hint] at h
      rcases oe with _ | e2
      · simp at h
      · simp only [Prod.mk.injEq] at h
        obtain ⟨he, hvm, hev⟩ := h
        obtain ⟨h1, h2⟩ := interpret_err_frame vm inst e2 vm2 ev2 hint
        exact ⟨hvm ▸ h1, hev ▸ h2⟩
  obtain ⟨h1, h2⟩ := frame
  subst h1 h2
  exact ⟨rfl, rfl, rfl, rfl, rfl, rfl, rfl, rfl, rfl⟩

/-- Claim C10 witness: a machine with empty ROM halts on its first cycle
and is left untouched. -/
theorem c10_witness :
    vmEmpty.cycle = (some (BError.ExecutionHaltedError 0), vmEmpty, []) ∧
    (vmEmpty.pc = vmEmpty.pc ∧ vmEmpty.mem.a = vmEmpty.mem.a ∧
     vmEmpty.mem.d = vmEmpty.mem.d ∧ vmEmpty.mem.e = vmEmpty.mem.e ∧
     vmEmpty.mem.f = vmEmpty.mem.f ∧ vmEmpty.mem.g = vmEmpty.mem.g ∧
     vmEmpty.mem.h = vmEmpty.mem.h ∧ vmEmpty.mem.ram.ram = vmEmpty.mem.ram.ram ∧
     ([] : List CbEvent) = []) :=
  ⟨rfl, c10_cycle_error_frame vmEmpty (BError.ExecutionHaltedError 0) vmEmpty [] rfl⟩

/-- A list of well-formed regions on which consecutive regions are
strictly separated is separated at every pair of positions. -/
theorem pairwise_of_adjacentOk {K V : Type} [LinearOrder K]
    {l : List (Region K V)} (hwf : ∀ r ∈ l, r.start ≤ r.stop)
    (hadj : adjacentOk l = true) :
    l.Pairwise (fun a b => a.stop < b.start) := by
  induction l with
  | nil => simp
  | cons a t ih =>
    cases t with
    | nil => simp
    | cons b t2 =>
      simp only [adjacentOk, Bool.and_eq_true, decide_eq_true_eq] at hadj
      obtain ⟨hab, hrest⟩ := hadj
      have hp := ih (fun r hr => hwf r (List.mem_cons_of_mem a hr)) hrest
      refine List.Pairwise.cons ?_ hp
      intro c hc
      rcases List.mem_cons.mp hc with hcb | hct
      · exact hcb ▸ hab
      · have hbc := (List.pairwise_cons.mp hp).1 c hct
        have hbwf : b.start ≤ b.stop := hwf b (by simp)
        exact lt_of_lt_of_le hab (le_trans hbwf (le_of_lt hbc))

/-- Pairwise strict separation gives back the consecutive scan. -/
theorem adjacentOk_of_pairwise {K V : Type} [LinearOrder K]
    {l : List (Region K V)}
    (h : l.Pairwise (fun a b => a.stop < b.start)) : adjacentOk l = true := by
  induction l with
  | nil => rfl
  | cons a t ih =>
    cases t with
    | nil => rfl
    | cons b t2 =>
      obtain ⟨ha, hbt⟩ := List.pairwise_cons.mp h
      simp only [adjacentOk, Bool.and_eq_true, decide_eq_true_eq]
      exact ⟨ha b (by simp), ih hbt⟩

/-- What a successful `RegionMap::try_from` guarantees: every region is
well-formed, the stored list is strictly separated in order, and it is a
permutation of the input. -/
theorem tryFrom_ok_inv {K V : Type} [LinearOrder K]
    {value : List (Region K V)} {m : RegionMap K V}
    (h : RegionMap.tryFrom value = .ok m) :
    (∀ r ∈ value, r.start ≤ r.stop) ∧
    m.regions.Pairwise (fun a b => a.stop < b.start) ∧
    m.regions.Perm value := by
  simp only [RegionMap.tryFrom] at h
  split at h
  case isFalse => simp at h
  case isTrue hall =>
    split at h
    case isFalse => simp at h
    case isTrue hadj =>
      simp only [Except.ok.injEq] at h
      subst h
      have hall' : ∀ r ∈ value, r.start ≤ r.stop := by
        intro r hr
        simpa using List.all_eq_true.mp hall r hr
      have hperm : (value.mergeSort fun a b => decide (a.start ≤ b.start)).Perm value :=
        List.mergeSort_perm value _
      refine ⟨hall', ?_, hperm⟩
      exact pairwise_of_adjacentOk
        (fun r hr => hall' r (hperm.mem_iff.mp hr)) hadj

/-- Claim C9: `RegionMap::try_from` succeeds exactly when every region has
`start ≤ end` and the regions are pairwise disjoint as inclusive
intervals; every failure is a `Map` error. -/
theorem c9_tryFrom_iff {K V : Type} [LinearOrder K]
    (value : List (Region K V)) :
    ((∃ m, RegionMap.tryFrom value = .ok m) ↔
      (∀ r ∈ value, r.start ≤ r.stop) ∧
        value.Pairwise (fun a b => a.stop < b.start ∨ b.stop < a.start)) ∧
    (∀ e, RegionMap.tryFrom value = .error e → ∃ msg, e = .MapError msg) := by
  constructor
  · constructor
    · rintro ⟨m, hm⟩
      obtain ⟨hwf, hchain, hperm⟩ := tryFrom_ok_inv hm
      refine ⟨hwf, ?_⟩
      have hdisj : m.regions.Pairwise (fun a b => a.stop < b.start ∨ b.stop < a.start) :=
        hchain.imp Or.inl
      exact (List.Perm.pairwise_iff (fun hxy => hxy.symm) hperm).mp hdisj
    · rintro ⟨hwf, hdisj⟩
      refine ⟨⟨value.mergeSort fun a b => decide (a.start ≤ b.start)⟩, ?_⟩
      have hperm : (value.mergeSort fun a b => decide (a.start ≤ b.start)).Perm value :=
        List.mergeSort_perm value _
      have hsorted := @List.sorted_mergeSort (Region K V)
        (fun a b => decide (a.start ≤ b.start))
        (fun a b c hab hbc => by
          simp only [decide_eq_true_eq] at hab hbc ⊢
          exact le_trans hab hbc)
        (fun a b => by
          simp only [Bool.or_eq_true, decide_eq_true_eq]
          exact le_total a.start b.start)
        value
      have hdisj' : (value.mergeSort fun a b => decide (a.start ≤ b.start)).Pairwise
          (fun a b => a.stop < b.start ∨ b.stop < a.start) :=
        (List.Perm.pairwise_iff (fun hxy => hxy.symm) hperm).mpr hdisj
      have hchain : (value.mergeSort fun a b => decide (a.start ≤ b.start)).Pairwise
          (fun a b => a.stop < b.start) := by
        have hand := List.pairwise_and_iff.mpr ⟨hdisj', hsorted⟩
        refine hand.imp_of_mem ?_
        intro a b ha hb hab
        rcases hab.1 with h1 | h1
        · exact h1
        · exfalso
          have hb' : b.start ≤ b.stop := hwf b (hperm.mem_iff.mp hb)
          have hle : a.start ≤ b.start := by
            have := hab.2
            simpa using this
          exact absurd (lt_of_le_of_lt hb' (lt_of_lt_of_le h1 hle)) (lt_irrefl _)
      simp only [RegionMap.tryFrom]
      rw [if_pos, if_pos (adjacentOk_of_pairwise hchain)]
      exact List.all_eq_true.mpr (fun r hr => by simpa using hwf r hr)
  · intro e he
    simp only [RegionMap.tryFrom] at he
    split at he
    · split at he
      · simp at he
      · exact ⟨"regions overlap", by simpa using he.symm⟩
    · exact ⟨"region has start > end", by simpa using he.symm⟩

/-- Claim C9 witness: the two separated regions `[0x100, 0x1ff]` and
`[0x200, 0x2ff]` construct successfully. -/
theorem c9_witness :
    ((∀ r ∈ [Region.mk (0x100 : Nat) 0x1ff AccessLevels.Read,
              Region.mk 0x200 0x2ff AccessLevels.None],
        r.start ≤ r.stop) ∧
      [Region.mk (0x100 : Nat) 0x1ff AccessLevels.Read,
       Region.mk 0x200 0x2ff AccessLevels.None].Pairwise
        (fun a b => a.stop < b.start ∨ b.stop < a.start)) ∧
    ∃ m, RegionMap.tryFrom
        [Region.mk (0x100 : Nat) 0x1ff AccessLevels.Read,
         Region.mk 0x200 0x2ff AccessLevels.None] = .ok m :=
  ⟨⟨by decide, by decide⟩,
    (c9_tryFrom_iff _).1.mpr ⟨by decide, by decide⟩⟩

/-- Correctness of the bisection loop of `RegionMap::find_region`: on a
list of well-formed, strictly separated regions, a search bracketed
around the index of the region containing `position` returns that
region's label. -/
theorem findRegionAux_correct {K V : Type} [LinearOrder K]
    (regions : List (Region K V))
    (hwf : ∀ r ∈ regions, r.start ≤ r.stop)
    (hchain : regions.Pairwise (fun a b => a.stop < b.start))
    (position : K) (i : Nat) (r : Region K V)
    (hget : regions[i]? = some r)
    (h1 : r.start ≤ position) (h2 : position ≤ r.stop) :
    ∀ n low high, high - low = n → low ≤ i → i < high →
      high ≤ regions.length →
      findRegionAux regions position low high = some r.label := by
  have hsep : ∀ (a b : Nat) (ra rb : Region K V), a < b → regions[a]? = some ra →
      regions[b]? = some rb → ra.stop < rb.start := by
    intro a b ra rb hab ha hb
    obtain ⟨ha', hae⟩ := List.getElem?_eq_some_iff.mp ha
    obtain ⟨hb', hbe⟩ := List.getElem?_eq_some_iff.mp hb
    subst hae hbe
    exact List.pairwise_iff_getElem.mp hchain a b ha' hb' hab
  intro n
  induction n using Nat.strong_induction_on with
  | _ n ih =>
    intro low high hn hlow hhigh hhb
    have hlh : low < high := lt_of_le_of_lt hlow hhigh
    rw [findRegionAux, dif_pos hlh]
    have hmidlt : (low + high) / 2 < high := by omega
    have hmidge : low ≤ (low + high) / 2 := by omega
    have hmidlen : (low + high) / 2 < regions.length := lt_of_lt_of_le hmidlt hhb
    obtain ⟨rm, hm⟩ : ∃ rm, regions[(low + high) / 2]? = some rm :=
      ⟨_, List.getElem?_eq_getElem hmidlen⟩
    have hrm_mem : rm ∈ regions := List.getElem?_mem hm
    simp only [hm]
    by_cases hc1 : position < rm.start
    · rw [if_pos hc1]
      have himid : i < (low + high) / 2 := by
        rcases lt_trichotomy i ((low + high) / 2) with h | h | h
        · exact h
        · exfalso
          rw [h] at hget
          have hrr : rm = r := Option.some_inj.mp (hm.symm.trans hget)
          exact absurd (lt_of_le_of_lt h1 hc1) (by rw [hrr]; exact lt_irrefl _)
        · exfalso
          have hlt := hsep _ _ rm r h hm hget
          have hww : rm.start ≤ rm.stop := hwf rm hrm_mem
          exact absurd (lt_of_le_of_lt (le_trans hww (le_of_lt hlt))
            (lt_of_le_of_lt h1 hc1)) (lt_irrefl _)
      exact ih ((low + high) / 2 - low) (by omega) low ((low + high) / 2) rfl
        hlow himid (le_of_lt hmidlen)
    · rw [if_neg hc1]
      by_cases hc2 : rm.stop < position
      · rw [if_pos hc2]
        have himid : (low + high) / 2 < i := by
          rcases lt_trichotomy i ((low + high) / 2) with h | h | h
          · exfalso
            have hlt := hsep _ _ r rm h hget hm
            have hww : rm.start ≤ rm.stop := hwf rm hrm_mem
            exact absurd (lt_of_le_of_lt h2 (lt_of_lt_of_le hlt
              (le_trans hww (le_of_lt hc2)))) (lt_irrefl _)
          · exfalso
            rw [h] at hget
            have hrr : rm = r := Option.some_inj.mp (hm.symm.trans hget)
            exact absurd h2 (by rw [← hrr]; exact not_le_of_lt hc2)
          · exact h
        exact ih (high - ((low + high) / 2 + 1)) (by omega) ((low + high) / 2 + 1)
          high rfl himid hhigh hhb
      · rw [if_neg hc2]
        have hieq : i = (low + high) / 2 := by
          rcases lt_trichotomy i ((low + high) / 2) with h | h | h
          · exfalso
            have hlt := hsep _ _ r rm h hget hm
            exact hc1 (lt_of_le_of_lt h2 hlt)
          · exact h
          · exfalso
            have hlt := hsep _ _ rm r h hm hget
            exact hc2 (lt_of_lt_of_le hlt h1)
        rw [hieq] at hget
        have hrr : rm = r := Option.some_inj.mp (hm.symm.trans hget)
        rw [hrr]

/-- `RegionMap::find_region` on a map built by a successful
`RegionMap::try_from` finds the label of the input region containing the
position. -/
theorem findRegion_mem {K V : Type} [LinearOrder K]
    {value : List (Region K V)} {m : RegionMap K V}
    (hok : RegionMap.tryFrom value = .ok m)
    (r : Region K V) (hr : r ∈ value) (position : K)
    (h1 : r.start ≤ position) (h2 : position ≤ r.stop) :
    m.findRegion position = some r.label := by
  obtain ⟨hwf, hchain, hperm⟩ := tryFrom_ok_inv hok
  have hr' : r ∈ m.regions := hperm.mem_iff.mpr hr
  obtain ⟨i, hi, hget⟩ := List.getElem_of_mem hr'
  have hget' : m.regions[i]? = some r := by
    rw [List.getElem?_eq_getElem hi, hget]
  exact findRegionAux_correct m.regions
    (fun s hs => hwf s (hperm.mem_iff.mp hs)) hchain position i r hget' h1 h2
    m.regions.length 0 m.regions.length rfl (Nat.zero_le i) hi (le_refl _)

/-- Claim C4: on RAM whose region map was built from a region list by
`RegionMap::try_from`, a write to any address inside a `Read` region
leaves the RAM contents unchanged and fires no write callback, and a read
from any address inside a `None` region returns 0 regardless of the
backing array. -/
theorem c4_access_levels (rs : List (Region Nat AccessLevels))
    (m : RegionMap Nat AccessLevels)
    (hok : RegionMap.tryFrom rs = .ok m)
    (ram : Ram) (hmr : ram.memory_regions = m) :
    (∀ r ∈ rs, r.label = .Read → ∀ pos, r.start ≤ pos → pos ≤ r.stop →
       ∀ value, ram.write_ram pos value = (ram, [])) ∧
    (∀ r ∈ rs, r.label = .Read → ∀ mu : MemoryUnit, mu.ram = ram →
       r.start ≤ mu.a → mu.a ≤ r.stop →
       ∀ value, mu.set_reg Register.MA value = (mu, [])) ∧
    (∀ r ∈ rs, r.label = .None → ∀ pos, r.start ≤ pos → pos ≤ r.stop →
       ram.read_ram pos = 0) := by
  have hwrite : ∀ r ∈ rs, r.label = .Read → ∀ pos, r.start ≤ pos →
      pos ≤ r.stop → ∀ value, ram.write_ram pos value = (ram, []) := by
    intro r hr hlabel pos hp1 hp2 value
    have hfind := findRegion_mem hok r hr pos hp1 hp2
    unfold Ram.write_ram
    rw [hmr, hfind, hlabel]
    rfl
  refine ⟨hwrite, ?_, ?_⟩
  · intro r hr hlabel mu hmu ha1 ha2 value
    have hw := hwrite r hr hlabel mu.a ha1 ha2 value
    rw [← hmu] at hw
    simp only [MemoryUnit.set_reg, hw]
  · intro r hr hlabel pos hp1 hp2
    have hfind := findRegion_mem hok r hr pos hp1 hp2
    unfold Ram.read_ram
    rw [hmr, hfind, hlabel]
    rfl

/-- Claim C4 witness: with the concrete map `mW`, a write at `0x150`
(inside the `Read` region) changes nothing and fires nothing, and a read
at `0x250` (inside the `None` region) returns 0 although the backing
array holds 7. -/
theorem c4_witness :
    RegionMap.tryFrom rsW = .ok mW ∧ ramW.memory_regions = mW ∧
    ramW.write_ram 0x150 9 = (ramW, []) ∧
    muW.set_reg Register.MA 9 = (muW, []) ∧ ramW.read_ram 0x250 = 0 := by
  have hsorted : rsW.mergeSort (fun a b => decide (a.start ≤ b.start)) = rsW :=
    List.mergeSort_of_sorted (by decide)
  have hok : RegionMap.tryFrom rsW = .ok mW := by
    simp only [RegionMap.tryFrom, hsorted]
    rw [if_pos (by decide), if_pos (by decide)]
    rfl
  have h := c4_access_levels rsW mW hok ramW rfl
  refine ⟨hok, rfl, ?_, ?_, ?_⟩
  · exact h.1 (Region.mk 0x100 0x1ff AccessLevels.Read) (by decide) rfl 0x150
      (by norm_num) (by norm_num) 9
  · exact h.2.1 (Region.mk 0x100 0x1ff AccessLevels.Read) (by decide) rfl muW
      rfl (by norm_num [muW]) (by norm_num [muW]) 9
  · exact h.2.2 (Region.mk 0x200 0x2ff AccessLevels.None) (by decide) rfl 0x250
      (by norm_num) (by norm_num)

/-- Bind on a successful `Except` step. -/
theorem ebind_ok {α β : Type} (a : α) (f : α → Except BError β) :
    (Except.ok a : Except BError α) >>= f = f a := rfl

/-- Bind on a failed `Except` step. -/
theorem ebind_err {α β : Type} (e : BError) (f : α → Except BError β) :
    (Except.error e : Except BError α) >>= f = .error e := rfl

/-- `pure` on `Except` is `ok`. -/
theorem epure {α : Type} (a : α) : (pure a : Except BError α) = .ok a := rfl

/-- `check_slice` succeeds on inputs long enough. -/
theorem check_slice_ok {input : List Nat} {len : Nat} (h : len ≤ input.length) :
    check_slice input len = .ok (input.take len) := by
  unfold check_slice
  rw [if_neg (by omega)]

/-- `check_slice` on a stream that starts with a chunk of the requested
length returns that chunk. -/
theorem check_slice_prefixed (pre rest : List Nat) (n : Nat)
    (hlen : pre.length = n) :
    check_slice (pre ++ rest) n = .ok pre := by
  rw [check_slice_ok (by rw [List.length_append]; omega), List.take_left' hlen]

/-- Byte length of a flat-mapped word list. -/
theorem flatMap_toBe_length (ws : List Nat) :
    (ws.flatMap toBeBytes).length = 2 * ws.length := by
  induction ws with
  | nil => rfl
  | cons w t ih =>
    simp only [List.flatMap_cons, List.length_append, ih, toBeBytes,
      List.length_cons, List.length_nil]
    omega

/-- Byte length of a flat-mapped mapping list, in the `amnt * 7` shape the
deserializer computes. -/
theorem flatMap_mapb_length (ms : List (Nat × Nat × Nat)) :
    (ms.flatMap mappingBytes).length = ms.length * 7 := by
  induction ms with
  | nil => rfl
  | cons m t ih =>
    simp only [List.flatMap_cons, List.length_append, ih, mappingBytes,
      toBeBytes, List.length_cons, List.length_nil, List.length_append]
    omega

/-- Recombining the two big-endian bytes of a word gives the word back. -/
theorem fromBe_toBe (v : Nat) : fromBeBytes (v / 256) (v % 256) = v := by
  unfold fromBeBytes
  omega

/-- `extract_number` inverts `to_be_bytes` plus separator. -/
theorem extract_number_toBe (v : Nat) :
    extract_number (toBeBytes v ++ [0x00]) = .ok v := by
  simp only [extract_number, toBeBytes, List.cons_append, List.nil_append,
    List.getD_cons_zero, List.getD_cons_succ]
  rw [if_neg (by omega)]
  have : v / 256 * 256 + v % 256 = v := by omega
  rw [this]

/-- Reading an item off the end of a chunk: `getD` at the chunk length
looks into the tail. -/
theorem getD_append_self (l1 l2 : List Nat) (n : Nat) (h : l1.length = n) :
    (l1 ++ l2).getD n 0 = l2.getD 0 0 := by
  subst h
  simp [List.getD, List.getElem?_append_right (le_refl l1.length)]

/-- The word-reading loop inverts the word serializer, for any tail. -/
theorem readWords_flatMap (ws : List Nat) (tail : List Nat) :
    readWords ws.length (ws.flatMap toBeBytes ++ tail) = ws := by
  induction ws with
  | nil => rfl
  | cons w t ih =>
    simp only [List.flatMap_cons, toBeBytes, List.append_assoc,
      List.cons_append, List.nil_append, List.length_cons]
    rw [readWords]
    simp only [List.getD_cons_zero, List.getD_cons_succ, List.drop_succ_cons,
      List.drop_zero, fromBe_toBe, ih]

/-- The word-reading loop inverts the word serializer. -/
theorem readWords_flatMap_nil (ws : List Nat) :
    readWords ws.length (ws.flatMap toBeBytes) = ws := by
  have := readWords_flatMap ws []
  rwa [List.append_nil] at this

/-- The mapping-reading loop inverts the mapping serializer, for any
tail. -/
theorem readMappings_flatMap (ms : List (Nat × Nat × Nat)) (tail : List Nat) :
    readMappings ms.length (ms.flatMap mappingBytes ++ tail) = .ok ms := by
  induction ms with
  | nil => rfl
  | cons m t ih =>
    obtain ⟨a, b, c⟩ := m
    simp only [List.flatMap_cons, mappingBytes, toBeBytes, List.append_assoc,
      List.cons_append, List.nil_append, List.length_cons]
    rw [readMappings]
    simp only [List.getD_cons_zero, List.getD_cons_succ, List.drop_succ_cons,
      List.drop_zero, fromBe_toBe, ih, ebind_ok]
    rw [if_neg (by omega)]

/-- `pure` sequencing on `Except`. -/
theorem epure_bind {α β : Type} (a : α) (f : α → Except BError β) :
    (pure a : Except BError α) >>= f = f a := rfl

set_option maxHeartbeats 3200000 in
/-- Claim C1: for an image with no callbacks and no ROM blocks whose
serialization succeeds (at most `0xffff` mappings and ROM words, with the
fixed six-register and 65,536-word-RAM shapes), `deserialize ∘ serialize`
is the identity on PC, ROM, the full RAM array, the register inits and
the `rom_mappings` list — the deserialized image equals the original
field by field. -/
theorem c1_image_roundtrip (d : VmDescription)
    (hcb : d.callbacks = []) (hrb : d.rom_blocks = [])
    (hmaps : d.rom_mappings.length ≤ 0xffff) (hrom : d.rom.length ≤ 0xffff)
    (hregs : d.regs.length = 6) (hmem : d.mem.length = RAM_LEN) :
    d.serialize = .ok (vmDescBytes d) ∧
    VmDescription.deserialize (vmDescBytes d) = .ok d := by
  obtain ⟨pc, rom, mem, cb, maps, regs, rb⟩ := d
  simp only at hcb hrb hmaps hrom hregs hmem
  subst hcb hrb
  constructor
  · unfold VmDescription.serialize
    rw [if_neg (by simp only; omega), if_neg (by simp only; omega)]
  · have hregs_words : readWords 6 (regs.flatMap toBeBytes ++ [0x00]) = regs := by
      rw [← hregs]
      exact readWords_flatMap regs [0x00]
    have hmem_words : readWords RAM_LEN (mem.flatMap toBeBytes) = mem := by
      rw [← hmem]
      exact readWords_flatMap_nil mem
    have hreglen : (regs.flatMap toBeBytes ++ [0x00]).length = 13 := by
      rw [List.length_append, flatMap_toBe_length, hregs]
      rfl
    have hmaplen : (maps.flatMap mappingBytes ++ [0x00]).length =
        maps.length * 7 + 1 := by
      rw [List.length_append, flatMap_mapb_length]
      rfl
    have hromlen : (rom.flatMap toBeBytes ++ [0x00]).length =
        2 * rom.length + 1 := by
      rw [List.length_append, flatMap_toBe_length]
      rfl
    simp only [VmDescription.deserialize, vmDescBytes]
    rw [check_slice_prefixed [0x42, 0x56, 0x4d, 0x00] _ 4 rfl]
    try simp only [ebind_ok, epure_bind]
    rw [if_neg (by decide)]
    try simp only [ebind_ok, epure_bind]
    rw [List.drop_left' (show ([0x42, 0x56, 0x4d, 0x00] : List Nat).length = 4 from rfl)]
    rw [check_slice_prefixed (toBeBytes pc ++ [0x00]) _ 3 (by rfl)]
    try simp only [ebind_ok, epure_bind]
    rw [extract_number_toBe pc]
    try simp only [ebind_ok, epure_bind]
    rw [List.drop_left' (show (toBeBytes pc ++ [0x00]).length = 3 from rfl)]
    rw [check_slice_prefixed _ _ 13 hreglen]
    try simp only [ebind_ok, epure_bind]
    rw [getD_append_self _ _ 12 (by rw [flatMap_toBe_length, hregs])]
    rw [if_neg (by decide)]
    try simp only [ebind_ok, epure_bind]
    simp only [hregs_words]
    rw [List.drop_left' hreglen]
    rw [check_slice_prefixed [0x52, 0x4d, 0x50, 0x00] _ 4 rfl]
    try simp only [ebind_ok, epure_bind]
    rw [if_neg (by decide)]
    try simp only [ebind_ok, epure_bind]
    rw [List.drop_left' (show ([0x52, 0x4d, 0x50, 0x00] : List Nat).length = 4 from rfl)]
    rw [check_slice_prefixed (toBeBytes maps.length ++ [0x00]) _ 3 (by rfl)]
    try simp only [ebind_ok, epure_bind]
    rw [extract_number_toBe maps.length]
    try simp only [ebind_ok, epure_bind]
    rw [List.drop_left' (show (toBeBytes maps.length ++ [0x00]).length = 3 from rfl)]
    rw [check_slice_prefixed _ _ _ hmaplen]
    try simp only [ebind_ok, epure_bind, Nat.add_sub_cancel]
    rw [getD_append_self _ _ _ (flatMap_mapb_length maps)]
    rw [if_neg (by decide)]
    try simp only [ebind_ok, epure_bind]
    rw [readMappings_flatMap maps [0x00]]
    try simp only [ebind_ok, epure_bind]
    rw [List.drop_left' hmaplen]
    rw [check_slice_prefixed [0x52, 0x4f, 0x4d, 0x00] _ 4 rfl]
    try simp only [ebind_ok, epure_bind]
    rw [if_neg (by decide)]
    try simp only [ebind_ok, epure_bind]
    rw [List.drop_left' (show ([0x52, 0x4f, 0x4d, 0x00] : List Nat).length = 4 from rfl)]
    rw [check_slice_prefixed (toBeBytes rom.length ++ [0x00]) _ 3 (by rfl)]
    try simp only [ebind_ok, epure_bind]
    rw [extract_number_toBe rom.length]
    try simp only [ebind_ok, epure_bind]
    rw [List.drop_left' (show (toBeBytes rom.length ++ [0x00]).length = 3 from rfl)]
    rw [check_slice_prefixed _ _ _ hromlen]
    try simp only [ebind_ok, epure_bind, Nat.add_sub_cancel]
    rw [getD_append_self _ _ _ (flatMap_toBe_length rom)]
    rw [if_neg (by decide)]
    try simp only [ebind_ok, epure_bind]
    rw [readWords_flatMap rom [0x00]]
    rw [List.drop_left' hromlen]
    rw [check_slice_prefixed [0x52, 0x41, 0x4d, 0x00] _ 4 rfl]
    try simp only [ebind_ok, epure_bind]
    rw [if_neg (by decide)]
    try simp only [ebind_ok, epure_bind]
    rw [List.drop_left' (show ([0x52, 0x41, 0x4d, 0x00] : List Nat).length = 4 from rfl)]
    rw [if_neg (show ¬ (mem.flatMap toBeBytes).length ≠ RAM_LEN * 2 by
      rw [flatMap_toBe_length, hmem]
      decide)]
    try simp only [ebind_ok, epure_bind]
    simp only [hmem_words]
    rfl

/-- Claim C1 witness: the round trip on the concrete image `d1W`. -/
theorem c1_witness :
    (d1W.callbacks = [] ∧ d1W.rom_blocks = [] ∧
     d1W.rom_mappings.length ≤ 0xffff ∧ d1W.rom.length ≤ 0xffff ∧
     d1W.regs.length = 6 ∧ d1W.mem.length = RAM_LEN) ∧
    d1W.serialize = .ok (vmDescBytes d1W) ∧
    VmDescription.deserialize (vmDescBytes d1W) = .ok d1W :=
  ⟨⟨rfl, rfl, by decide, by decide, rfl, by simp [d1W]⟩,
   c1_image_roundtrip d1W rfl rfl (by decide) (by decide) rfl (by simp [d1W])⟩

/-- A 3-bit field always decodes to a register (`TryFromPrimitive` covers
all eight codes). -/
theorem register_tryFrom_ok (n : Nat) (h : n < 8) :
    ∃ r, Register.tryFrom n = .ok r := by
  interval_cases n <;> exact ⟨_, rfl⟩

/-- Claim C3: in a cycle that executes an ALU instruction whose operation
succeeds with output `output`, the branch is taken iff
`(lt && instr.lt) || (gt && instr.gt) || (eq && instr.eq)` — where the
flags come from `output` read as a signed 16-bit value — and when it is
taken the PC after the cycle equals the value register A held at the
branch (mod 2^16), for every A including `A = 0` and independently of the
instruction's target register; when it is not taken the PC steps to
`pc + 1` (mod 2^16). -/
theorem c3_branch_semantics (vm : Vm) (inst output : Nat)
    (hfetch : vm.rom[vm.pc]? = some inst)
    (halu : getBit inst 15 = false)
    (hout : aluOutput vm inst = some output) :
    branchCond inst output =
      ((flagLt output && getBit inst 2) || (flagGt output && getBit inst 0) ||
       (flagEq output && getBit inst 1)) ∧
    (vm.cycle).1 = none ∧
    (branchCond inst output = true → (vm.cycle).2.1.pc = vm.mem.a % 65536) ∧
    (branchCond inst output = false → (vm.cycle).2.1.pc = (vm.pc + 1) % 65536) := by
  refine ⟨rfl, ?_⟩
  simp only [aluOutput] at hout
  split at hout
  · simp at hout
  next src hsrc =>
    split at hout
    · simp at hout
    next out hac =>
      replace hout : out = output := by injection hout
      subst hout
      obtain ⟨tgt, htgt⟩ :=
        register_tryFrom_ok (getBits inst 3 3) (Nat.mod_lt _ (by norm_num))
      simp only [Vm.cycle, hfetch, Vm.interpret_instruction, halu, hsrc, htgt, hac]
      refine ⟨rfl, ?_, ?_⟩
      · intro hbc
        simp [hbc]
        omega
      · intro hbc
        simp [hbc]

/-- Claim C3 witness: the always-jump word `0b111` with `A = 0` takes the
branch and lands the PC on 0. -/
theorem c3_witness :
    vmJmp.rom[vmJmp.pc]? = some 7 ∧ getBit 7 15 = false ∧
    aluOutput vmJmp 7 = some 0 ∧
    (branchCond 7 0 =
      ((flagLt 0 && getBit 7 2) || (flagGt 0 && getBit 7 0) ||
       (flagEq 0 && getBit 7 1)) ∧
     (vmJmp.cycle).1 = none ∧
     (branchCond 7 0 = true → (vmJmp.cycle).2.1.pc = vmJmp.mem.a % 65536) ∧
     (branchCond 7 0 = false → (vmJmp.cycle).2.1.pc = (vmJmp.pc + 1) % 65536)) :=
  ⟨rfl, rfl, rfl, c3_branch_semantics vmJmp 7 0 rfl rfl rfl⟩

/-- `Debugger::deserialize` on any stream that begins with the 8-byte
magic `Debugger::serialize` writes: after consuming only `BDB\0`, it reads
`B`, `P`, `S` as the breakpoint-count field and fails on the byte `S`
(0x53), which is not the expected `0x00` separator. -/
theorem debugger_deserialize_bps_err (rest : List Nat) :
    Debugger.deserialize
        ([0x42, 0x44, 0x42, 0x00, 0x42, 0x50, 0x53, 0x00] ++ rest) =
      .error (.SerializationError "Invalid region separators") := rfl

/-- Claim C2: the debugger round trip always fails.  `serialize` emits the
8-byte magic `BDB\0BPS\0`, but `deserialize` consumes only 4 bytes of
magic, so every successful serialization deserializes to an error rather
than restoring the session. -/
theorem c2_roundtrip_always_fails (d : Debugger) (bytes : List Nat)
    (h : d.serialize = .ok bytes) :
    Debugger.deserialize bytes =
      .error (.SerializationError "Invalid region separators") := by
  unfold Debugger.serialize at h
  split at h
  · simp at h
  · rcases hs : d.vm.to_vm_desc.serialize with e | s <;> rw [hs] at h
    · simp [Bind.bind, Except.bind] at h
    · simp only [Bind.bind, Except.bind, pure, Except.pure, Except.ok.injEq] at h
      subst h
      exact debugger_deserialize_bps_err _

/-- Claim C2 witness: the round trip fails on a concrete session (the S1
machine, no breakpoints). -/
theorem c2_witness :
    ∃ bytes, dbgW.serialize = .ok bytes ∧
      Debugger.deserialize bytes =
        .error (.SerializationError "Invalid region separators") :=
  ⟨_, rfl, c2_roundtrip_always_fails dbgW _ rfl⟩

/-- Claim C8: a `[text]` section consisting of the single undefined label
use `foo` passes the text pass, and the const pass then panics (the Rust
code indexes `label_definitions[&name]` for a name that was never
defined) instead of returning an `AsmParse` error. -/
theorem c8_undefined_label_panics :
    text_processor.assemble [fooLine] 0 = .ok fooAsm ∧
    const_processor.find_and_place fooAsm [] 0 256 = .panicked :=
  ⟨rfl, rfl⟩

end BricVm
